import Mathlib

/-!
Verification of the hoppielib-go protocol codec and connection lifecycle.

The Lean definitions in this file are a shallow embedding of the Go source:
strings are modelled as `List Char`, Go `int` as unbounded `Int` (the
counters and wire integers involved never approach machine bounds),
Go `*T` optionals as `Option`, and fallible functions as an explicit
result type `Res`.  Each definition carries a comment naming the Go
function it embeds.
-/

/-- Result type mirroring Go's `(value, error)` return convention:
exactly one of the error or the value is present. -/
inductive Res (ε α : Type) where
  | error (e : ε)
  | ok (a : α)
deriving DecidableEq, Repr

/-! ## Decimal integer codec (model of `strconv.Itoa` / `strconv.Atoi`)

`strconv.Itoa` renders an int as optional leading minus sign followed by
base-10 digits; `strconv.Atoi` accepts an optional leading plus or
minus sign followed by one or more base-10 digits (range errors for
values beyond 64 bits are outside the modelled value domain). -/

/-- Character for a single decimal digit `d < 10` (codes 48–57). -/
def digitChar (d : Nat) : Char := Char.ofNat (48 + d)

/-- Little-endian base-10 digits of `n`, with explicit fuel for structural
recursion; `fuel ≥ n` makes the result exact. -/
def natLE (fuel n : Nat) : List Nat :=
  match fuel with
  | 0 => []
  | fuel + 1 => if n = 0 then [] else (n % 10) :: natLE fuel (n / 10)

/-- Value of a little-endian digit list. -/
def digitsVal : List Nat → Nat
  | [] => 0
  | d :: ds => d + 10 * digitsVal ds

/-- Decimal rendering of a natural number (digits of `strconv.Itoa`). -/
def natToChars (n : Nat) : List Char :=
  if n = 0 then [digitChar 0] else ((natLE n n).reverse).map digitChar

/-- Model of `strconv.Itoa` on Go `int`. -/
def intToChars (i : Int) : List Char :=
  if i < 0 then '-' :: natToChars i.natAbs else natToChars i.natAbs

/-- Numeric value of a decimal digit character, if it is one. -/
def digitVal (c : Char) : Option Nat :=
  if 48 ≤ c.toNat ∧ c.toNat ≤ 57 then some (c.toNat - 48) else none

/-- Accumulating digit parser: fails on the first non-digit character. -/
def parseDigitsAux (acc : Nat) : List Char → Option Nat
  | [] => some acc
  | c :: cs =>
    match digitVal c with
    | some d => parseDigitsAux (10 * acc + d) cs
    | none => none

/-- Digit-run parser requiring at least one digit. -/
def parseDigits (cs : List Char) : Option Nat :=
  if cs = [] then none else parseDigitsAux 0 cs

/-- Model of `strconv.Atoi`: optional sign, then one or more digits. -/
def goAtoi (cs : List Char) : Option Int :=
  match cs with
  | [] => none
  | c :: rest =>
    if c = '-' then
      match parseDigits rest with
      | some n => some (-(n : Int))
      | none => none
    else if c = '+' then
      match parseDigits rest with
      | some n => some ((n : Int))
      | none => none
    else
      match parseDigits (c :: rest) with
      | some n => some ((n : Int))
      | none => none

theorem natLE_val (fuel : Nat) : ∀ n : Nat, n ≤ fuel → digitsVal (natLE fuel n) = n := by
  induction fuel with
  | zero => intro n h; interval_cases n; rfl
  | succ fuel ih =>
    intro n h
    by_cases h0 : n = 0
    · subst h0; simp [natLE, digitsVal]
    · have hdiv : n / 10 ≤ fuel := by
        have : n / 10 < n := Nat.div_lt_self (Nat.pos_of_ne_zero h0) (by norm_num)
        omega
      simp only [natLE, if_neg h0, digitsVal, ih (n / 10) hdiv]
      omega

theorem natLE_lt (fuel : Nat) : ∀ n d : Nat, d ∈ natLE fuel n → d < 10 := by
  induction fuel with
  | zero => intro n d h; simp [natLE] at h
  | succ fuel ih =>
    intro n d h
    by_cases h0 : n = 0
    · subst h0; simp [natLE] at h
    · simp only [natLE, if_neg h0, List.mem_cons] at h
      rcases h with h | h
      · subst h; exact Nat.mod_lt n (by norm_num)
      · exact ih (n / 10) d h

theorem digitVal_digitChar (d : Nat) (h : d < 10) : digitVal (digitChar d) = some d := by
  interval_cases d <;> decide

theorem parseDigitsAux_map (ds : List Nat) : ∀ acc : Nat, (∀ d ∈ ds, d < 10) →
    parseDigitsAux acc (ds.map digitChar) = some (ds.foldl (fun a d => 10 * a + d) acc) := by
  induction ds with
  | nil => intro acc _; rfl
  | cons d ds ih =>
    intro acc hlt
    have hd : d < 10 := hlt d (by simp)
    simp only [List.map_cons, parseDigitsAux, digitVal_digitChar d hd, List.foldl_cons]
    exact ih (10 * acc + d) (fun x hx => hlt x (by simp [hx]))

theorem foldl_digitsVal (L : List Nat) :
    L.foldr (fun d a => 10 * a + d) 0 = digitsVal L := by
  induction L with
  | nil => rfl
  | cons d ds ih => simp only [List.foldr_cons, digitsVal, ih]; omega

theorem natToChars_ne_nil (n : Nat) : natToChars n ≠ [] := by
  by_cases h0 : n = 0
  · subst h0; simp [natToChars]
  · obtain ⟨m, hm⟩ : ∃ m, n = m + 1 := ⟨n - 1, by omega⟩
    simp [natToChars, h0, natLE, hm]

theorem mem_natToChars (n : Nat) (c : Char) (h : c ∈ natToChars n) :
    ∃ d, d < 10 ∧ c = digitChar d := by
  by_cases h0 : n = 0
  · subst h0; simp only [natToChars, if_true, List.mem_singleton] at h
    exact ⟨0, by norm_num, by simpa using h⟩
  · simp only [natToChars, if_neg h0, List.mem_map, List.mem_reverse] at h
    obtain ⟨d, hd, hc⟩ := h
    exact ⟨d, natLE_lt n n d hd, hc.symm⟩

theorem parseDigits_natToChars (n : Nat) : parseDigits (natToChars n) = some n := by
  by_cases h0 : n = 0
  · subst h0; decide
  · have hne := natToChars_ne_nil n
    simp only [parseDigits, if_neg hne]
    simp only [natToChars, if_neg h0]
    rw [parseDigitsAux_map ((natLE n n).reverse) 0
      (fun d hd => natLE_lt n n d (List.mem_reverse.mp hd))]
    rw [List.foldl_reverse, foldl_digitsVal, natLE_val n n (le_refl n)]

theorem digitChar_ne_minus (d : Nat) (h : d < 10) : digitChar d ≠ '-' := by
  interval_cases d <;> decide

theorem digitChar_ne_plus (d : Nat) (h : d < 10) : digitChar d ≠ '+' := by
  interval_cases d <;> decide

theorem digitChar_ne_slash (d : Nat) (h : d < 10) : digitChar d ≠ '/' := by
  interval_cases d <;> decide

theorem digitChar_ne_space (d : Nat) (h : d < 10) : digitChar d ≠ ' ' := by
  interval_cases d <;> decide

theorem goAtoi_natToChars (n : Nat) : goAtoi (natToChars n) = some (n : Int) := by
  obtain ⟨c, rest, hsplit⟩ : ∃ c rest, natToChars n = c :: rest := by
    rcases h : natToChars n with _ | ⟨c, rest⟩
    · exact absurd h (natToChars_ne_nil n)
    · exact ⟨c, rest, rfl⟩
  have hc : c ∈ natToChars n := by rw [hsplit]; simp
  obtain ⟨d, hd, hcd⟩ := mem_natToChars n c hc
  have h1 : c ≠ '-' := hcd ▸ digitChar_ne_minus d hd
  have h2 : c ≠ '+' := hcd ▸ digitChar_ne_plus d hd
  rw [hsplit, goAtoi, if_neg h1, if_neg h2, ← hsplit, parseDigits_natToChars]

theorem goAtoi_intToChars (i : Int) : goAtoi (intToChars i) = some i := by
  by_cases hneg : i < 0
  · rw [intToChars, if_pos hneg, goAtoi, if_pos rfl, parseDigits_natToChars]
    show some (-(i.natAbs : Int)) = some i
    congr 1
    omega
  · simp only [intToChars, if_neg hneg]
    rw [goAtoi_natToChars]
    congr 1
    omega

theorem intToChars_ne_nil (i : Int) : intToChars i ≠ [] := by
  by_cases hneg : i < 0
  · simp [intToChars, hneg]
  · simp only [intToChars, if_neg hneg]; exact natToChars_ne_nil _

theorem mem_intToChars_ne_slash (i : Int) (c : Char) (h : c ∈ intToChars i) : c ≠ '/' := by
  by_cases hneg : i < 0
  · simp only [intToChars, if_pos hneg, List.mem_cons] at h
    rcases h with h | h
    · subst h; decide
    · obtain ⟨d, hd, hcd⟩ := mem_natToChars _ c h
      exact hcd ▸ digitChar_ne_slash d hd
  · simp only [intToChars, if_neg hneg] at h
    obtain ⟨d, hd, hcd⟩ := mem_natToChars _ c h
    exact hcd ▸ digitChar_ne_slash d hd

/-! ## List utilities (models of `strings.CutPrefix`, `strings.Split`,
`strings.TrimPrefix` with a single-character argument) -/

/-- Model of `strings.CutPrefix p s`: the remainder after `p`, when `p`
leads `s`. -/
def stripPfx : List Char → List Char → Option (List Char)
  | [], s => some s
  | _ :: _, [] => none
  | p :: ps, c :: cs => if p = c then stripPfx ps cs else none

/-- Model of `strings.Split s sep` for a one-character separator: all
fields between separators, empty fields preserved. -/
def splitOnChar (sep : Char) : List Char → List (List Char)
  | [] => [[]]
  | c :: cs =>
    if c = sep then [] :: splitOnChar sep cs
    else
      match splitOnChar sep cs with
      | [] => [[c]]
      | p :: ps => (c :: p) :: ps

/-- Model of `strings.TrimPrefix s " "`: drops one leading space. -/
def trimOneSpace : List Char → List Char
  | ' ' :: cs => cs
  | cs => cs

theorem stripPfx_append (p : List Char) : ∀ s : List Char, stripPfx p (p ++ s) = some s := by
  induction p with
  | nil => intro s; rfl
  | cons c cs ih => intro s; simp only [List.cons_append, stripPfx, if_pos rfl]; exact ih s

theorem splitOnChar_ne_nil (sep : Char) : ∀ cs : List Char, splitOnChar sep cs ≠ [] := by
  intro cs
  induction cs with
  | nil => simp [splitOnChar]
  | cons c cs ih =>
    by_cases hc : c = sep
    · simp [splitOnChar, hc]
    · simp only [splitOnChar, if_neg hc]
      rcases h : splitOnChar sep cs with _ | ⟨p, ps⟩
      · simp
      · simp

theorem splitOnChar_no_sep (sep : Char) (a : List Char) (ha : ∀ c ∈ a, c ≠ sep) :
    splitOnChar sep a = [a] := by
  induction a with
  | nil => rfl
  | cons c cs ih =>
    have hc : c ≠ sep := ha c (by simp)
    have hcs : splitOnChar sep cs = [cs] := ih (fun x hx => ha x (by simp [hx]))
    simp [splitOnChar, if_neg hc, hcs]

theorem splitOnChar_append (sep : Char) (a : List Char) (ha : ∀ c ∈ a, c ≠ sep) :
    ∀ rest : List Char, splitOnChar sep (a ++ sep :: rest) = a :: splitOnChar sep rest := by
  induction a with
  | nil => intro rest; simp [splitOnChar]
  | cons c cs ih =>
    intro rest
    have hc : c ≠ sep := ha c (by simp)
    have hcs := ih (fun x hx => ha x (by simp [hx])) rest
    show splitOnChar sep (c :: (cs ++ sep :: rest)) = (c :: cs) :: splitOnChar sep rest
    rw [splitOnChar, if_neg hc, hcs]

/-! ## CPDLC message codec

Embeds `ParseCPDLCMessage` and `MakeCPDLCPacket` from `cpdlc.go` /
`parsers.go`.  The Go error values are modelled by `CPDLCError`:
`formatError` is the shared `ErrInvalidCPDLCFormat`, while the three
validation constructors stand for the `fmt.Errorf` values complaining
about the MIN, the MRN and the RRK respectively. -/

inductive CPDLCError where
  | formatError
  | minError
  | mrnError
  | rrkError
deriving DecidableEq, Repr

/-- The validation (value out of domain) errors, as opposed to the
format error. -/
def CPDLCError.isValidation : CPDLCError → Bool
  | .formatError => false
  | _ => true

/-- Mirror of the Go struct `CPDLCMessage`. -/
structure CPDLCMessage where
  Min : Int
  Mrn : Option Int
  Rrk : List Char
  Data : List Char
deriving DecidableEq, Repr

/-- The six `ResponseRequirements` wire codes. -/
def rrkCodes : List (List Char) :=
  ["WU".toList, "AN".toList, "R".toList, "NE".toList, "Y".toList, "N".toList]

/-- Model of `isValidResponseRequirement`: the description map has a
non-empty entry exactly for the six codes. -/
def isValidResponseRequirement (rrk : List Char) : Bool :=
  rrkCodes.contains rrk

/-- The wire literal `"/data2/"`. -/
def data2Lit : List Char := "/data2/".toList

/-- Embedding of `ParseCPDLCMessage` (`parsers.go:73`, `cpdlc.go:49`):
cut the `/data2/` leader, split the remainder on `/` into exactly four
fields, convert MIN, convert a non-empty MRN, check the RRK code. -/
def ParseCPDLCMessage (data : List Char) : Res CPDLCError CPDLCMessage :=
  match stripPfx data2Lit data with
  | none => .error .formatError
  | some stripped =>
    match splitOnChar '/' stripped with
    | [mi, mr, rk, da] =>
      match goAtoi mi with
      | none => .error .minError
      | some minCast =>
        match mr with
        | [] =>
          if isValidResponseRequirement rk then .ok ⟨minCast, none, rk, da⟩
          else .error .rrkError
        | _ :: _ =>
          match goAtoi mr with
          | none => .error .mrnError
          | some mrnCast =>
            if isValidResponseRequirement rk then .ok ⟨minCast, some mrnCast, rk, da⟩
            else .error .rrkError
    | _ => .error .formatError

/-- Embedding of `MakeCPDLCPacket`: emits
`/data2/<min>/<mrn-or-empty>/<rrk>/<data>` (the builder of `acars.go:274`
and the join of `cpdlc.go:462` produce the same string). -/
def MakeCPDLCPacket (min : Int) (mrn : Option Int) (rrk : List Char) (data : List Char) :
    List Char :=
  data2Lit ++ (intToChars min ++ ('/' ::
    ((match mrn with | some m => intToChars m | none => []) ++
      ('/' :: (rrk ++ ('/' :: data))))))

/-! ## ACARS envelope scanner

Embeds `ParseACARSMessage` (`parsers.go:58`), which scans the raw poll
response with the regular expression
`\x5c{([A-Z0-9]+)\s+([a-z]+)\s+(\x5c{[^}]+\x5c})\x5c}` and keeps every
match, in input order.  Because the character classes of adjacent
sub-expressions are pairwise disjoint and `[^}]+` cannot cross the
closing brace, the regular expression matches at a given position iff
the deterministic greedy parser below succeeds there, and leftmost
scanning with resumption after each match is exactly the loop below. -/

/-- Mirror of the Go struct `ACARSMessage` (sender callsign, wire type
code, payload with the inner braces stripped). -/
structure ACARSMessage where
  sender : List Char
  type : List Char
  data : List Char
deriving DecidableEq, Repr

/-- Character class `[A-Z0-9]` of the sender group. -/
def isSenderChar (c : Char) : Bool :=
  ('A' ≤ c && c ≤ 'Z') || ('0' ≤ c && c ≤ '9')

/-- Character class `[a-z]` of the type group. -/
def isLowerChar (c : Char) : Bool := 'a' ≤ c && c ≤ 'z'

/-- RE2 whitespace class for this pattern. -/
def isSpaceChar (c : Char) : Bool :=
  c == ' ' || c == '\t' || c == '\n' || c == '\x0c' || c == '\r'

/-- The opening and closing brace characters. -/
def openBrace : Char := '\x7b'

/-- See `openBrace`. -/
def closeBrace : Char := '\x7d'

/-- Attempt to match one envelope unit at the head of the input,
returning the captures and the remainder after the match. -/
def tryEnvelope (cs : List Char) : Option (ACARSMessage × List Char) :=
  match cs with
  | [] => none
  | c :: rest =>
    if c = openBrace then
      let s1 := rest.span isSenderChar
      if s1.1 = [] then none else
      let s2 := s1.2.span isSpaceChar
      if s2.1 = [] then none else
      let s3 := s2.2.span isLowerChar
      if s3.1 = [] then none else
      let s4 := s3.2.span isSpaceChar
      if s4.1 = [] then none else
      match s4.2 with
      | d :: r5 =>
        if d = openBrace then
          let s5 := r5.span (fun c => c ≠ closeBrace)
          if s5.1 = [] then none else
          match s5.2 with
          | e1 :: e2 :: r6 =>
            if e1 = closeBrace ∧ e2 = closeBrace then
              some (⟨s1.1, s3.1, s5.1⟩, r6)
            else none
          | _ => none
        else none
      | [] => none
    else none

/-- Scan loop of `FindAllStringSubmatch`: try a match at each position,
resume after the end of each match.  `fuel` bounds the recursion and is
instantiated with the input length, which always suffices because each
step consumes at least one character. -/
def scanACARS : Nat → List Char → List ACARSMessage
  | 0, _ => []
  | _ + 1, [] => []
  | fuel + 1, c :: cs =>
    match tryEnvelope (c :: cs) with
    | some (m, rest) => m :: scanACARS fuel rest
    | none => scanACARS fuel cs

/-- Embedding of `ParseACARSMessage`. -/
def ParseACARSMessage (data : List Char) : List ACARSMessage :=
  scanACARS data.length data

theorem tryEnvelope_not_open (c : Char) (cs : List Char) (h : c ≠ openBrace) :
    tryEnvelope (c :: cs) = none := by
  rw [tryEnvelope, if_neg h]

theorem scanACARS_no_open (fuel : Nat) : ∀ cs : List Char,
    (∀ c ∈ cs, c ≠ openBrace) → scanACARS fuel cs = [] := by
  induction fuel with
  | zero => intro cs _; rfl
  | succ fuel ih =>
    intro cs hcs
    match cs with
    | [] => rfl
    | c :: cs =>
      rw [scanACARS, tryEnvelope_not_open c cs (hcs c (by simp))]
      exact ih cs (fun x hx => hcs x (by simp [hx]))

/-! ## ADS-C report parser

Embeds `ParseAdsCMessage` (the file defining `ADSCMessage`): cut the
`REPORT` leader, trim one space, split on spaces, require at least five
fields, then validate the optional heading (sixth field) before the
position and altitude fields, exactly in source order.  The `float32`
values of latitude and longitude are not inspected by any claim, so the
struct keeps their source text and only the parse-success of
`strconv.ParseFloat` is modelled (plain base-10 literals with optional
sign, decimal point and exponent; the special and hexadecimal forms
accepted by Go never arise in the inputs considered here). -/

inductive ADSCError where
  | prefixError
  | fieldCountError (got : Nat)
  | headingError
  | positionError
  | formatError
deriving DecidableEq, Repr

/-- The detail text joined onto `ErrInvalidFieldCount`, from
`fmt.Sprintf("(got %d field values, expected 5 field values)", len(parts))`. -/
def fieldCountErrorMessage (got : Nat) : List Char :=
  "(got ".toList ++ natToChars got ++ " field values, expected 5 field values)".toList

/-- Mirror of the Go struct `ADSCMessage`; latitude and longitude keep
their wire text (see section comment). -/
structure ADSCMessage where
  Callsign : List Char
  Time : List Char
  LatitudeText : List Char
  LongitudeText : List Char
  Altitude : Int
  Heading : Option Int
deriving DecidableEq, Repr

/-- Decimal digit test. -/
def isDigitChar (c : Char) : Bool := 48 ≤ c.toNat && c.toNat ≤ 57

/-- Exponent suffix of a float literal: empty, or `e`/`E`, optional
sign, one or more digits. -/
def expTailOk (cs : List Char) : Bool :=
  match cs with
  | [] => true
  | c :: rest =>
    (c == 'e' || c == 'E') &&
      (let rest2 := match rest with
        | d :: ds => if d = '+' ∨ d = '-' then ds else rest
        | [] => []
      let s := rest2.span isDigitChar
      !s.1.isEmpty && s.2.isEmpty)

/-- Acceptance test of `strconv.ParseFloat` on plain decimal literals:
optional sign, digits with an optional decimal point (at least one
digit overall), optional exponent. -/
def goParseFloatOk (cs0 : List Char) : Bool :=
  let cs := match cs0 with
    | c :: rest => if c = '+' ∨ c = '-' then rest else cs0
    | [] => []
  let p := cs.span isDigitChar
  match p.2 with
  | '.' :: r2 =>
    let f := r2.span isDigitChar
    (!p.1.isEmpty || !f.1.isEmpty) && expTailOk f.2
  | _ => !p.1.isEmpty && expTailOk p.2

/-- The wire literal `REPORT`. -/
def reportLit : List Char := "REPORT".toList

/-- Embedding of `ParseAdsCMessage`. -/
def ParseAdsCMessage (message : List Char) : Res ADSCError ADSCMessage :=
  match stripPfx reportLit message with
  | none => .error .prefixError
  | some stripped =>
    let parts := splitOnChar ' ' (trimOneSpace stripped)
    if parts.length < 5 then .error (.fieldCountError parts.length)
    else
      let headingStep : Res ADSCError (Option Int) :=
        if parts.length > 5 then
          match goAtoi (parts.getD 5 []) with
          | none => .error .headingError
          | some h => if h > 360 ∨ h < 0 then .error .headingError else .ok (some h)
        else .ok none
      match headingStep with
      | .error e => .error e
      | .ok heading =>
        if goParseFloatOk (parts.getD 2 []) then
          if goParseFloatOk (parts.getD 3 []) then
            match goAtoi (parts.getD 4 []) with
            | none => .error .formatError
            | some altitude =>
              .ok ⟨parts.getD 0 [], parts.getD 1 [], parts.getD 2 [], parts.getD 3 [],
                altitude, heading⟩
          else .error .positionError
        else .error .positionError

/-! ## Connection state machine and session engine

Embeds the connection lifecycle of `cpdlc.go`: the `ACARSConnection`
record guarded by a mutex, `Connect`, the body of the `Listen` poll
loop, and `CPDLCRequest`.  Calls to the transport (`MakeRawRequest`)
are modelled by passing the transport outcome as an explicit argument;
`m.cancel()` is modelled by a `cancelled` flag in the outcome, and
`PushState` by recording the pushed states in a list. -/

/-- Mirror of the Go enum (`Connected = iota`, `Waiting`,
`Disconnected`). -/
inductive ConnectionState where
  | Connected
  | Waiting
  | Disconnected
deriving DecidableEq, Repr

/-- The fields of `ACARSConnection` relevant to the state machine
(the mutex serialises access; the `rx` channel is modelled by the
`pushed` lists of the step outcomes). -/
structure ACARSConnection where
  state : ConnectionState
  station : Option (List Char)
  lastMin : Int
deriving DecidableEq, Repr

/-- The connection created by `NewACARSManager`: state `Disconnected`,
no station, `lastMin = 1`. -/
def initialConnection : ACARSConnection :=
  ⟨.Disconnected, none, 1⟩

/-- Mirror of `ACARSManagerOptions`. -/
structure ACARSManagerOptions where
  adscReporting : Bool
  cpdlcLogonTimeout : Option Int
  pollingInterval : Int
deriving DecidableEq, Repr

/-- Session-level errors distinguished by the claims. -/
inductive SessionError where
  | stateError
  | transportError (msg : List Char)
  | timeoutError
  | ctxCancelled
  | decodeError (e : CPDLCError)
deriving DecidableEq, Repr

/-- The literal `"REQUEST LOGON"`. -/
def logonRequestData : List Char := "REQUEST LOGON".toList

/-- The literal `"LOGON ACCEPTED"`. -/
def logonAcceptedData : List Char := "LOGON ACCEPTED".toList

/-- The `cpdlc` wire type code. -/
def cpdlcTypeCode : List Char := "cpdlc".toList

/-- The `RespondRequired` code `Y`. -/
def rrkRequired : List Char := "Y".toList

/-- Outcome of `Connect`. -/
structure ConnectOutcome where
  conn : ACARSConnection
  cancelled : Bool
  err : Option SessionError
  sent : Option (List Char)
  pushed : List ConnectionState
deriving DecidableEq, Repr

/-- Embedding of `(*ACARSManager).Connect` (`cpdlc.go:246`): reject and
cancel when the callsign is nil-or-empty AND the station argument is
empty; otherwise record the station, send the logon request built from
the current `lastMin`, cancel on transport failure, and on success push
`Waiting`. -/
def Connect (callsign : Option (List Char)) (conn : ACARSConnection) (station : List Char)
    (transport : Res (List Char) (List Char)) : ConnectOutcome :=
  if (callsign = none ∨ callsign = some []) ∧ station = [] then
    ⟨conn, true, some .stateError, none, []⟩
  else
    let conn1 := { conn with station := some station }
    let packet := MakeCPDLCPacket conn1.lastMin none rrkRequired logonRequestData
    match transport with
    | .error e => ⟨conn1, true, some (.transportError e), some packet, []⟩
    | .ok _ => ⟨{ conn1 with state := .Waiting }, false, none, some packet, [.Waiting]⟩

/-- Outcome of `CPDLCRequest`. -/
structure RequestOutcome where
  conn : ACARSConnection
  cancelled : Bool
  err : Option SessionError
  sent : Option (List Char)
deriving DecidableEq, Repr

/-- Embedding of `(*ACARSManager).CPDLCRequest` (`cpdlc.go:399`): fail
with the state error unless Connected with a station; otherwise
increment `lastMin` under the lock, build the packet from the
incremented value, send it, and return any transport error without
rolling back the increment and without cancelling. -/
def CPDLCRequest (conn : ACARSConnection) (data rrk : List Char)
    (transport : Res (List Char) (List Char)) : RequestOutcome :=
  if conn.state ≠ .Connected ∨ conn.station = none then
    ⟨conn, false, some .stateError, none⟩
  else
    let conn1 := { conn with lastMin := conn.lastMin + 1 }
    let packet := MakeCPDLCPacket conn1.lastMin none rrk data
    match transport with
    | .error e => ⟨conn1, false, some (.transportError e), some packet⟩
    | .ok _ => ⟨conn1, false, none, some packet⟩

/-- The logon-acceptance test of the `Listen` loop (`cpdlc.go:363`):
`message.Data == "LOGON ACCEPTED" && message.Mrn != nil &&
*message.Mrn == m.Connection.lastMin && v.Sender ==
*m.Connection.Station()` (the station is non-nil whenever `Listen`
runs, by its entry guard). -/
def logonMatches (conn : ACARSConnection) (sender : List Char) (msg : CPDLCMessage) : Prop :=
  msg.Data = logonAcceptedData ∧ msg.Mrn = some conn.lastMin ∧ conn.station = some sender

instance (conn : ACARSConnection) (sender : List Char) (msg : CPDLCMessage) :
    Decidable (logonMatches conn sender msg) := by
  unfold logonMatches; infer_instance

/-- Outcome of routing one decoded envelope inside the poll loop. -/
structure RouteOutcome where
  conn : ACARSConnection
  pushed : List ConnectionState
  err : Option CPDLCError
deriving DecidableEq, Repr

/-- Embedding of the per-envelope routing in `Listen` (`cpdlc.go:357`):
while `Waiting`, a CPDLC envelope is decoded (a decode failure aborts
the loop with that error); a decoded message matching the pending logon
pushes `Connected`, any other decoded message only logs. -/
def routeEnvelope (conn : ACARSConnection) (v : ACARSMessage) : RouteOutcome :=
  if conn.state = .Waiting ∧ v.type = cpdlcTypeCode then
    match ParseCPDLCMessage v.data with
    | .error e => ⟨conn, [], some e⟩
    | .ok msg =>
      if logonMatches conn v.sender msg then
        ⟨{ conn with state := .Connected }, [.Connected], none⟩
      else ⟨conn, [], none⟩
  else ⟨conn, [], none⟩

/-- Outcome of processing the envelope list of one poll response. -/
structure PollOutcome where
  conn : ACARSConnection
  pushed : List ConnectionState
  published : List ACARSMessage
  err : Option CPDLCError
deriving DecidableEq, Repr

/-- The `for _, v := range ParseACARSMessage(data)` loop body: route
each envelope, then hand it to the `messages` channel; a decode error
returns immediately (that envelope is not published). -/
def processEnvelopes (conn : ACARSConnection) : List ACARSMessage → PollOutcome
  | [] => ⟨conn, [], [], none⟩
  | v :: rest =>
    let r := routeEnvelope conn v
    match r.err with
    | some e => ⟨r.conn, r.pushed, [], some e⟩
    | none =>
      let tail := processEnvelopes r.conn rest
      ⟨tail.conn, r.pushed ++ tail.pushed, v :: tail.published, tail.err⟩

/-- One firing of the `select` in the `Listen` loop (`cpdlc.go:331`):
either the logon-timeout channel, a poll tick (whose transport outcome
and raw response are the event's data), or context cancellation.  The
timeout channel only exists when `cpdlcLogonTimeout` is configured
(`time.After` is only armed then; a nil channel never fires). -/
inductive ListenEvent where
  | timeout
  | tick (transport : Res (List Char) (List Char))
  | cancelled
deriving DecidableEq, Repr

/-- Outcome of one `Listen` loop iteration. -/
structure ListenStepOutcome where
  conn : ACARSConnection
  pushed : List ConnectionState
  published : List ACARSMessage
  cancelledSession : Bool
  exit : Option SessionError
deriving DecidableEq, Repr

/-- Embedding of the `Listen` loop body: the timeout case pushes
`Disconnected` unconditionally and exits with the timeout error; a
failed poll cancels and exits with the transport error; a successful
poll routes and publishes every decoded envelope; cancellation exits
with the context error. -/
def listenStep (conn : ACARSConnection) : ListenEvent → ListenStepOutcome
  | .timeout => ⟨{ conn with state := .Disconnected }, [.Disconnected], [], false,
      some .timeoutError⟩
  | .tick (.error e) => ⟨conn, [], [], true, some (.transportError e)⟩
  | .tick (.ok data) =>
    let p := processEnvelopes conn (ParseACARSMessage data)
    ⟨p.conn, p.pushed, p.published, false, p.err.map .decodeError⟩
  | .cancelled => ⟨conn, [], [], false, some .ctxCancelled⟩

/-- Whether the timeout arm of the `select` can fire at all. -/
def timeoutEnabled (opts : ACARSManagerOptions) : Prop :=
  opts.cpdlcLogonTimeout ≠ none

/-- Every operation of the session that can touch the connection
record. -/
inductive SessionEvent where
  | connectEv (callsign : Option (List Char)) (station : List Char)
      (transport : Res (List Char) (List Char))
  | listenEv (ev : ListenEvent)
  | requestEv (data rrk : List Char) (transport : Res (List Char) (List Char))
deriving DecidableEq, Repr

/-- The connection after one session operation. -/
def sessionStep (conn : ACARSConnection) : SessionEvent → ACARSConnection
  | .connectEv cs st tr => (Connect cs conn st tr).conn
  | .listenEv ev => (listenStep conn ev).conn
  | .requestEv d r tr => (CPDLCRequest conn d r tr).conn

/-- The transitions the specification admits: stay put, Disconnected to
Waiting, Waiting to Connected, and Waiting to Disconnected. -/
def claimedTransitionOk (s t : ConnectionState) : Bool :=
  s == t || (s == .Disconnected && t == .Waiting) ||
    (s == .Waiting && t == .Connected) || (s == .Waiting && t == .Disconnected)

theorem routeEnvelope_cases (conn : ACARSConnection) (v : ACARSMessage) :
    (routeEnvelope conn v).conn = conn ∨
      (conn.state = .Waiting ∧
        (routeEnvelope conn v).conn = { conn with state := .Connected }) := by
  unfold routeEnvelope
  by_cases hg : conn.state = .Waiting ∧ v.type = cpdlcTypeCode
  · rw [if_pos hg]
    rcases hp : ParseCPDLCMessage v.data with e | msg
    · exact Or.inl rfl
    · dsimp only
      by_cases hm : logonMatches conn v.sender msg
      · rw [if_pos hm]; exact Or.inr ⟨hg.1, rfl⟩
      · rw [if_neg hm]; exact Or.inl rfl
  · rw [if_neg hg]; exact Or.inl rfl

theorem routeEnvelope_frozen (conn : ACARSConnection) (v : ACARSMessage)
    (h : conn.state ≠ .Waiting) : (routeEnvelope conn v).conn = conn := by
  rcases routeEnvelope_cases conn v with hc | ⟨hw, _⟩
  · exact hc
  · exact absurd hw h

theorem processEnvelopes_state (l : List ACARSMessage) : ∀ conn : ACARSConnection,
    (processEnvelopes conn l).conn.state = conn.state ∨
      (conn.state = .Waiting ∧ (processEnvelopes conn l).conn.state = .Connected) := by
  induction l with
  | nil => intro conn; exact Or.inl rfl
  | cons v rest ih =>
    intro conn
    rw [processEnvelopes]
    rcases he : (routeEnvelope conn v).err with _ | e
    · rcases routeEnvelope_cases conn v with hc | ⟨hw, hc⟩
      · rw [hc]
        simpa using ih conn
      · rw [hc]
        rcases ih { conn with state := .Connected } with h1 | ⟨h2, _⟩
        · exact Or.inr ⟨hw, by simpa using h1⟩
        · simp at h2
    · rcases routeEnvelope_cases conn v with hc | ⟨hw, hc⟩
      · rw [hc]; exact Or.inl rfl
      · rw [hc]; exact Or.inr ⟨hw, rfl⟩

theorem processEnvelopes_other_fields (l : List ACARSMessage) : ∀ conn : ACARSConnection,
    (processEnvelopes conn l).conn.station = conn.station ∧
      (processEnvelopes conn l).conn.lastMin = conn.lastMin := by
  induction l with
  | nil => intro conn; exact ⟨rfl, rfl⟩
  | cons v rest ih =>
    intro conn
    rw [processEnvelopes]
    have hroute : (routeEnvelope conn v).conn.station = conn.station ∧
        (routeEnvelope conn v).conn.lastMin = conn.lastMin := by
      rcases routeEnvelope_cases conn v with hc | ⟨_, hc⟩ <;> rw [hc] <;> exact ⟨rfl, rfl⟩
    rcases he : (routeEnvelope conn v).err with _ | e
    · have := ih (routeEnvelope conn v).conn
      exact ⟨by simpa [this.1] using hroute.1, by simpa [this.2] using hroute.2⟩
    · exact hroute

/-! ## Interleaving model of the `lastMin` counter

`CPDLCRequest` performs two separate atomic accesses to the shared
counter: `IncrementMin()` (`cpdlc.go:232`), which takes the mutex and
increments `lastMin`, and then the argument evaluation
`MakeCPDLCPacket(m.Connection.lastMin, ...)` (`cpdlc.go:407`), which
reads the field again after the mutex has been released.  Each call in
a Connected session is therefore the action sequence
`[increment, read]`, and concurrent calls may interleave these actions
arbitrarily. -/

/-- One atomic access to the shared counter, tagged with the calling
goroutine. -/
inductive MinAction where
  | increment (tid : Nat)
  | read (tid : Nat)
deriving DecidableEq, Repr

/-- Run a schedule of counter actions from a starting value, returning
the final value and, in order, the value each read observed. -/
def runActions (v : Int) : List MinAction → Int × List (Nat × Int)
  | [] => (v, [])
  | .increment _ :: rest => runActions (v + 1) rest
  | .read t :: rest =>
    let r := runActions v rest
    (r.1, (t, v) :: r.2)

/-- The counter actions of one `CPDLCRequest` call made while
Connected. -/
def cpdlcMinActions (tid : Nat) : List MinAction :=
  [.increment tid, .read tid]

/-- Whether a schedule is an interleaving of two action sequences
(each sequence in order). -/
def isInterleaving : List MinAction → List MinAction → List MinAction → Bool
  | [], [], [] => true
  | _, _, [] => false
  | as, bs, c :: cs =>
    (match as with
      | a :: as2 => a == c && isInterleaving as2 bs cs
      | [] => false) ||
    (match bs with
      | b :: bs2 => b == c && isInterleaving as bs2 cs
      | [] => false)

/-! ## Claims -/

/-- C1: while the connection state is Waiting, a decoded inbound CPDLC
envelope moves the session to Connected iff its data is the literal
`LOGON ACCEPTED`, its MRN is present and equals the recorded `lastMin`,
and its sender is the recorded station; any other decoded CPDLC
envelope leaves the connection unchanged and is not an error. -/
theorem c1_logon_acceptance_iff (conn : ACARSConnection) (v : ACARSMessage)
    (msg : CPDLCMessage) (hw : conn.state = .Waiting) (ht : v.type = cpdlcTypeCode)
    (hp : ParseCPDLCMessage v.data = .ok msg) :
    ((routeEnvelope conn v).conn.state = .Connected ↔
      (msg.Data = logonAcceptedData ∧ msg.Mrn = some conn.lastMin ∧
        conn.station = some v.sender)) ∧
    (routeEnvelope conn v).err = none ∧
    (¬ (msg.Data = logonAcceptedData ∧ msg.Mrn = some conn.lastMin ∧
        conn.station = some v.sender) →
      (routeEnvelope conn v).conn = conn ∧ (routeEnvelope conn v).pushed = []) := by
  unfold routeEnvelope
  rw [if_pos ⟨hw, ht⟩, hp]
  dsimp only
  by_cases hm : logonMatches conn v.sender msg
  · rw [if_pos hm]
    exact ⟨⟨fun _ => hm, fun _ => rfl⟩, rfl, fun hn => absurd hm hn⟩
  · rw [if_neg hm]
    refine ⟨⟨fun hc => ?_, fun hcond => absurd hcond hm⟩, rfl, fun _ => ⟨rfl, rfl⟩⟩
    rw [hw] at hc
    exact absurd hc (by decide)

/-- Witness for C1 at a concrete session and envelope. -/
theorem c1_logon_acceptance_iff_witness :
    (routeEnvelope ⟨.Waiting, some "WLS2".toList, 1⟩
      ⟨"WLS2".toList, "cpdlc".toList, "/data2/1/1/NE/LOGON ACCEPTED".toList⟩).conn.state =
      ConnectionState.Connected :=
  (c1_logon_acceptance_iff ⟨.Waiting, some "WLS2".toList, 1⟩
    ⟨"WLS2".toList, "cpdlc".toList, "/data2/1/1/NE/LOGON ACCEPTED".toList⟩
    ⟨1, some 1, "NE".toList, logonAcceptedData⟩ rfl rfl (by decide)).1.mpr (by decide)

/-- C2 counterexample: for the tuple `(1, absent, Y, "A/B")` the encoded
packet has five slash-separated fields, so decoding fails with the
format error instead of reproducing the tuple. -/
theorem c2_roundtrip_counterexample :
    ParseCPDLCMessage (MakeCPDLCPacket 1 none rrkRequired "A/B".toList) =
      .error .formatError ∧
    ParseCPDLCMessage (MakeCPDLCPacket 1 none rrkRequired "A/B".toList) ≠
      .ok ⟨1, none, rrkRequired, "A/B".toList⟩ := by decide

/-- C2 amended: decoding the encoding reproduces the tuple exactly for
every min, every optional mrn (absent stays absent) and every valid
rrk, provided the data field contains no slash. -/
theorem c2_roundtrip_no_slash (min : Int) (mrn : Option Int) (rrk data : List Char)
    (hr : rrk ∈ rrkCodes) (hd : ∀ c ∈ data, c ≠ '/') :
    ParseCPDLCMessage (MakeCPDLCPacket min mrn rrk data) = .ok ⟨min, mrn, rrk, data⟩ := by
  have hrs : ∀ c ∈ rrk, c ≠ '/' := by
    simp only [rrkCodes, List.mem_cons, List.not_mem_nil, or_false] at hr
    rcases hr with h | h | h | h | h | h <;> subst h <;> decide
  have hvalid : isValidResponseRequirement rrk = true := by
    simp only [rrkCodes, List.mem_cons, List.not_mem_nil, or_false] at hr
    rcases hr with h | h | h | h | h | h <;> subst h <;> decide
  have hmin : ∀ c ∈ intToChars min, c ≠ '/' :=
    fun c hc => mem_intToChars_ne_slash min c hc
  rcases mrn with _ | m
  · have hsplit : splitOnChar '/'
        (intToChars min ++ ('/' :: (([] : List Char) ++ ('/' :: (rrk ++ ('/' :: data)))))) =
        [intToChars min, [], rrk, data] := by
      rw [splitOnChar_append '/' (intToChars min) hmin,
        splitOnChar_append '/' [] (by simp), splitOnChar_append '/' rrk hrs,
        splitOnChar_no_sep '/' data hd]
    rw [MakeCPDLCPacket]
    rw [ParseCPDLCMessage, stripPfx_append]
    dsimp only
    rw [hsplit]
    dsimp only
    rw [goAtoi_intToChars]
    simp [hvalid]
  · have hm2 : ∀ c ∈ intToChars m, c ≠ '/' :=
      fun c hc => mem_intToChars_ne_slash m c hc
    have hsplit : splitOnChar '/'
        (intToChars min ++ ('/' :: (intToChars m ++ ('/' :: (rrk ++ ('/' :: data)))))) =
        [intToChars min, intToChars m, rrk, data] := by
      rw [splitOnChar_append '/' (intToChars min) hmin,
        splitOnChar_append '/' (intToChars m) hm2, splitOnChar_append '/' rrk hrs,
        splitOnChar_no_sep '/' data hd]
    rw [MakeCPDLCPacket]
    rw [ParseCPDLCMessage, stripPfx_append]
    dsimp only
    rw [hsplit]
    dsimp only
    rw [goAtoi_intToChars]
    obtain ⟨c, cs, hcc⟩ : ∃ c cs, intToChars m = c :: cs := by
      rcases h : intToChars m with _ | ⟨c, cs⟩
      · exact absurd h (intToChars_ne_nil m)
      · exact ⟨c, cs, rfl⟩
    rw [hcc]
    dsimp only
    rw [← hcc, goAtoi_intToChars]
    simp [hvalid]

/-- Witness for the amended C2 at a concrete tuple. -/
theorem c2_roundtrip_no_slash_witness :
    ParseCPDLCMessage (MakeCPDLCPacket (-7) (some 3) "WU".toList "CLIMB TO FL330".toList) =
      .ok ⟨-7, some 3, "WU".toList, "CLIMB TO FL330".toList⟩ :=
  c2_roundtrip_no_slash (-7) (some 3) "WU".toList "CLIMB TO FL330".toList
    (by decide) (by decide)

/-- C3 counterexample: from the initial connection, a successful
`Connect` followed by a poll delivering the matching acceptance reaches
`Connected`; the logon-timeout firing then moves `Connected` directly
to `Disconnected`, a transition outside the claimed set (the timeout
case of `Listen` does not re-check that the state is still Waiting). -/
theorem c3_transitions_counterexample :
    (sessionStep initialConnection
      (.connectEv (some "BAW123".toList) "WLS2".toList (.ok "ok".toList))).state =
        ConnectionState.Waiting ∧
    (sessionStep
      (sessionStep initialConnection
        (.connectEv (some "BAW123".toList) "WLS2".toList (.ok "ok".toList)))
      (.listenEv (.tick
        (.ok "\x7bWLS2 cpdlc \x7b/data2/1/1/NE/LOGON ACCEPTED\x7d\x7d".toList)))).state =
        ConnectionState.Connected ∧
    (sessionStep
      (sessionStep
        (sessionStep initialConnection
          (.connectEv (some "BAW123".toList) "WLS2".toList (.ok "ok".toList)))
        (.listenEv (.tick
          (.ok "\x7bWLS2 cpdlc \x7b/data2/1/1/NE/LOGON ACCEPTED\x7d\x7d".toList))))
      (.listenEv .timeout)).state = ConnectionState.Disconnected ∧
    claimedTransitionOk .Connected .Disconnected = false := by decide

/-- C3 amended: the initial state is Disconnected; `CPDLCRequest`,
cancellation and failed polls never change the state; `Connect` either
leaves the state or moves it (from any state, not only Disconnected) to
Waiting; a successful poll either leaves the state or moves Waiting to
Connected; and the timeout event moves any state (not only Waiting) to
Disconnected. -/
theorem c3_transitions (conn : ACARSConnection) :
    initialConnection.state = .Disconnected ∧
    (∀ d r tr, (sessionStep conn (.requestEv d r tr)).state = conn.state) ∧
    (∀ cs st tr, (sessionStep conn (.connectEv cs st tr)).state = conn.state ∨
      (sessionStep conn (.connectEv cs st tr)).state = .Waiting) ∧
    (sessionStep conn (.listenEv .timeout)).state = .Disconnected ∧
    (sessionStep conn (.listenEv .cancelled)).state = conn.state ∧
    (∀ e, (sessionStep conn (.listenEv (.tick (.error e)))).state = conn.state) ∧
    (∀ data, (sessionStep conn (.listenEv (.tick (.ok data)))).state = conn.state ∨
      (conn.state = .Waiting ∧
        (sessionStep conn (.listenEv (.tick (.ok data)))).state = .Connected)) := by
  refine ⟨rfl, ?_, ?_, rfl, rfl, fun e => rfl, ?_⟩
  · intro d r tr
    unfold sessionStep CPDLCRequest
    dsimp only
    by_cases hg : conn.state ≠ .Connected ∨ conn.station = none
    · rw [if_pos hg]
    · rw [if_neg hg]
      rcases tr with e | d2 <;> rfl
  · intro cs st tr
    unfold sessionStep Connect
    dsimp only
    by_cases hg : (cs = none ∨ cs = some []) ∧ st = []
    · rw [if_pos hg]; exact Or.inl rfl
    · rw [if_neg hg]
      rcases tr with e | d2
      · exact Or.inl rfl
      · exact Or.inr rfl
  · intro data
    exact processEnvelopes_state (ParseACARSMessage data) conn

/-- C4 counterexample to the concurrency clause: each `CPDLCRequest`
is the action pair increment-then-read (the read happens outside the
mutex); in the interleaving where both calls increment before either
reads, both calls observe the same post-increment value 3 from the
initial counter 1. -/
theorem c4_lastmin_counterexample :
    isInterleaving (cpdlcMinActions 0) (cpdlcMinActions 1)
      [.increment 0, .increment 1, .read 0, .read 1] = true ∧
    (runActions 1 [.increment 0, .increment 1, .read 0, .read 1]).2 =
      [(0, 3), (1, 3)] := by decide

/-- C4 amended: `lastMin` starts at 1, no session operation decreases
it, a `CPDLCRequest` made while Connected with a station increments it
by exactly one, and `CPDLCRequest` in any other state fails with the
state error leaving the connection untouched; but because the
post-increment value is re-read outside the lock, two concurrent calls
can observe the same value (see the counterexample). -/
theorem c4_lastmin_invariants :
    initialConnection.lastMin = 1 ∧
    (∀ conn ev, conn.lastMin ≤ (sessionStep conn ev).lastMin) ∧
    (∀ conn d r tr, conn.state = .Connected → conn.station ≠ none →
      (CPDLCRequest conn d r tr).conn.lastMin = conn.lastMin + 1) ∧
    (∀ conn d r tr, conn.state ≠ .Connected ∨ conn.station = none →
      (CPDLCRequest conn d r tr).err = some .stateError ∧
        (CPDLCRequest conn d r tr).conn = conn) := by
  refine ⟨rfl, ?_, ?_, ?_⟩
  · intro conn ev
    rcases ev with ⟨cs, st, tr⟩ | ev | ⟨d, r, tr⟩
    · unfold sessionStep Connect
      dsimp only
      by_cases hg : (cs = none ∨ cs = some []) ∧ st = []
      · rw [if_pos hg]
      · rw [if_neg hg]
        rcases tr with e | d2 <;> exact le_refl _
    · rcases ev with _ | tr | _
      · exact le_refl _
      · rcases tr with e | data
        · exact le_refl _
        · have h := (processEnvelopes_other_fields (ParseACARSMessage data) conn).2
          unfold sessionStep listenStep
          dsimp only
          rw [h]
      · exact le_refl _
    · unfold sessionStep CPDLCRequest
      dsimp only
      by_cases hg : conn.state ≠ .Connected ∨ conn.station = none
      · rw [if_pos hg]
      · rw [if_neg hg]
        rcases tr with e | d2 <;> dsimp only <;> omega
  · intro conn d r tr hc hs
    have hg : ¬ (conn.state ≠ .Connected ∨ conn.station = none) := by
      rintro (h | h)
      · exact h hc
      · exact hs h
    unfold CPDLCRequest
    rw [if_neg hg]
    rcases tr with e | d2 <;> rfl
  · intro conn d r tr hg
    unfold CPDLCRequest
    rw [if_pos hg]
    exact ⟨rfl, rfl⟩

/-- Witness for the amended C4: a request in a concrete Connected
session moves `lastMin` from 5 to 6. -/
theorem c4_lastmin_invariants_witness :
    (CPDLCRequest ⟨.Connected, some "WLS2".toList, 5⟩ "X".toList "Y".toList
      (.ok [])).conn.lastMin = 6 := by
  have h := c4_lastmin_invariants.2.2.1 ⟨.Connected, some "WLS2".toList, 5⟩
    "X".toList "Y".toList (.ok []) rfl (by decide)
  simpa using h

/-- C5 counterexample: with a non-empty callsign, `Connect` with an
empty station is not rejected: the guard requires the callsign to be
nil-or-empty as well, so the logon request is sent to the empty
station. -/
theorem c5_empty_station_counterexample :
    (Connect (some "BAW123".toList) initialConnection [] (.ok "ok".toList)).err = none ∧
    (Connect (some "BAW123".toList) initialConnection [] (.ok "ok".toList)).cancelled =
      false ∧
    (Connect (some "BAW123".toList) initialConnection [] (.ok "ok".toList)).conn.state =
      ConnectionState.Waiting := by decide

/-- C5 amended: `Connect` is rejected with the state error and cancels
the session iff the station argument is empty AND the callsign is nil
or empty. -/
theorem c5_empty_station_guard (callsign : Option (List Char)) (conn : ACARSConnection)
    (station : List Char) (tr : Res (List Char) (List Char)) :
    ((Connect callsign conn station tr).err = some .stateError ∧
      (Connect callsign conn station tr).cancelled = true) ↔
    ((callsign = none ∨ callsign = some []) ∧ station = []) := by
  unfold Connect
  by_cases hg : (callsign = none ∨ callsign = some []) ∧ station = []
  · rw [if_pos hg]
    simpa using hg
  · rw [if_neg hg]
    rcases tr with e | d <;> simpa using hg

/-- C6: when a logon timeout is configured and fires while the state is
Waiting, the state becomes Disconnected, the change is pushed on the
notification channel, and the poll loop exits with the timeout error. -/
theorem c6_logon_timeout (opts : ACARSManagerOptions) (conn : ACARSConnection)
    (hcfg : timeoutEnabled opts) (hw : conn.state = .Waiting) :
    (listenStep conn .timeout).conn.state = .Disconnected ∧
    (listenStep conn .timeout).pushed = [.Disconnected] ∧
    (listenStep conn .timeout).exit = some .timeoutError :=
  ⟨rfl, rfl, rfl⟩

/-- Witness for C6 at a concrete configuration and session. -/
theorem c6_logon_timeout_witness :
    (listenStep ⟨.Waiting, some "WLS2".toList, 1⟩ .timeout).conn.state = .Disconnected ∧
    (listenStep ⟨.Waiting, some "WLS2".toList, 1⟩ .timeout).pushed = [.Disconnected] ∧
    (listenStep ⟨.Waiting, some "WLS2".toList, 1⟩ .timeout).exit = some .timeoutError :=
  c6_logon_timeout ⟨false, some 10, 60⟩ ⟨.Waiting, some "WLS2".toList, 1⟩
    (by simp [timeoutEnabled]) rfl

/-- C10: with the state Connected and a station set, a transport
failure makes `CPDLCRequest` return the transport error while `lastMin`
stays incremented and the session is not cancelled, whereas a transport
failure in `Connect` (past its argument guard) cancels the whole
session. -/
theorem c10_request_not_atomic (conn conn2 : ACARSConnection)
    (d r msg station : List Char) (callsign : Option (List Char))
    (hc : conn.state = .Connected) (hs : conn.station ≠ none)
    (hg : ¬ ((callsign = none ∨ callsign = some []) ∧ station = [])) :
    (CPDLCRequest conn d r (.error msg)).err = some (.transportError msg) ∧
    (CPDLCRequest conn d r (.error msg)).conn.lastMin = conn.lastMin + 1 ∧
    (CPDLCRequest conn d r (.error msg)).cancelled = false ∧
    (Connect callsign conn2 station (.error msg)).cancelled = true := by
  have hguard : ¬ (conn.state ≠ .Connected ∨ conn.station = none) := by
    rintro (h | h)
    · exact h hc
    · exact hs h
  unfold CPDLCRequest Connect
  rw [if_neg hguard, if_neg hg]
  exact ⟨rfl, rfl, rfl, rfl⟩

/-- Witness for C10 at a concrete session and failure. -/
theorem c10_request_not_atomic_witness :
    (CPDLCRequest ⟨.Connected, some "WLS2".toList, 4⟩ "X".toList "Y".toList
      (.error "boom".toList)).err = some (.transportError "boom".toList) ∧
    (CPDLCRequest ⟨.Connected, some "WLS2".toList, 4⟩ "X".toList "Y".toList
      (.error "boom".toList)).conn.lastMin = 4 + 1 ∧
    (CPDLCRequest ⟨.Connected, some "WLS2".toList, 4⟩ "X".toList "Y".toList
      (.error "boom".toList)).cancelled = false ∧
    (Connect (some "BAW123".toList) initialConnection "WLS2".toList
      (.error "boom".toList)).cancelled = true :=
  c10_request_not_atomic ⟨.Connected, some "WLS2".toList, 4⟩ initialConnection
    "X".toList "Y".toList "boom".toList "WLS2".toList (some "BAW123".toList)
    rfl (by decide) (by decide)

/-- Whether a parse outcome is one of the validation errors. -/
def isValidationResult : Res CPDLCError CPDLCMessage → Bool
  | .error e => e.isValidation
  | .ok _ => false

/-- C7: `ParseCPDLCMessage` yields the format error exactly when the
`/data2/` leader is missing or the remainder does not split on `/` into
exactly four fields; on a framed four-field input it yields a
validation error exactly when the MIN is not an integer, the MRN is
non-empty and not an integer, or the RRK is not one of the six codes;
and an empty MRN field decodes to an absent MRN, never to zero. -/
theorem c7_error_taxonomy :
    (∀ s, ParseCPDLCMessage s = .error .formatError ↔
      (stripPfx data2Lit s = none ∨
        ∃ st, stripPfx data2Lit s = some st ∧ (splitOnChar '/' st).length ≠ 4)) ∧
    (∀ st mi mr rk da, splitOnChar '/' st = [mi, mr, rk, da] →
      (isValidationResult (ParseCPDLCMessage (data2Lit ++ st)) = true ↔
        (goAtoi mi = none ∨ (mr ≠ [] ∧ goAtoi mr = none) ∨
          isValidResponseRequirement rk = false)) ∧
      (∀ v, goAtoi mi = some v → mr = [] → isValidResponseRequirement rk = true →
        ParseCPDLCMessage (data2Lit ++ st) = .ok ⟨v, none, rk, da⟩)) := by
  constructor
  · intro s
    rw [ParseCPDLCMessage]
    rcases hstrip : stripPfx data2Lit s with _ | st
    · simp
    · dsimp only
      rcases h4 : splitOnChar '/' st with _ | ⟨a, _ | ⟨b, _ | ⟨c, _ | ⟨d, _ | ⟨e, rest⟩⟩⟩⟩⟩
      · simp [h4]
      · simp [h4]
      · simp [h4]
      · simp [h4]
      · apply iff_of_false
        · rcases hmi : goAtoi a with _ | v
          · simp [hmi]
          · simp only [hmi]
            rcases b with _ | ⟨bc, bcs⟩
            · by_cases hrk : isValidResponseRequirement c = true
              · simp [hrk]
              · simp only [Bool.not_eq_true] at hrk
                simp [hrk]
            · rcases hmr : goAtoi (bc :: bcs) with _ | w
              · simp [hmr]
              · simp only [hmr]
                by_cases hrk : isValidResponseRequirement c = true
                · simp [hrk]
                · simp only [Bool.not_eq_true] at hrk
                  simp [hrk]
        · simp [h4]
      · simp [h4]
  · intro st mi mr rk da h4
    have hbase : ParseCPDLCMessage (data2Lit ++ st) =
        (match goAtoi mi with
          | none => .error .minError
          | some minCast =>
            match mr with
            | [] =>
              if isValidResponseRequirement rk then .ok ⟨minCast, none, rk, da⟩
              else .error .rrkError
            | _ :: _ =>
              match goAtoi mr with
              | none => .error .mrnError
              | some mrnCast =>
                if isValidResponseRequirement rk then .ok ⟨minCast, some mrnCast, rk, da⟩
                else .error .rrkError) := by
      rw [ParseCPDLCMessage, stripPfx_append]
      dsimp only
      simp only [h4]
      rcases mr with _ | ⟨c0, cs0⟩ <;> rfl
    constructor
    · rw [hbase]
      rcases hmi : goAtoi mi with _ | v
      · simp [hmi, isValidationResult, CPDLCError.isValidation]
      · simp only [hmi]
        rcases mr with _ | ⟨c, cs⟩
        · by_cases hrk : isValidResponseRequirement rk = true
          · simp [hrk, isValidationResult]
          · simp only [Bool.not_eq_true] at hrk
            simp [hrk, isValidationResult, CPDLCError.isValidation]
        · rcases hmr : goAtoi (c :: cs) with _ | w
          · simp [hmr, isValidationResult, CPDLCError.isValidation]
          · simp only [hmr]
            by_cases hrk : isValidResponseRequirement rk = true
            · simp [hrk, isValidationResult]
            · simp only [Bool.not_eq_true] at hrk
              simp [hrk, isValidationResult, CPDLCError.isValidation]
    · intro v hv hmr hrk
      subst hmr
      rw [hbase, hv]
      dsimp only
      rw [if_pos hrk]

/-- Witness for C7: a concrete framed packet with an empty MRN decodes
with the MRN absent. -/
theorem c7_error_taxonomy_witness :
    ParseCPDLCMessage (data2Lit ++ "12//WU/HELLO".toList) =
      .ok ⟨12, none, "WU".toList, "HELLO".toList⟩ :=
  ((c7_error_taxonomy.2 "12//WU/HELLO".toList "12".toList [] "WU".toList
    "HELLO".toList (by decide)).2 12 (by decide) rfl (by decide))

/-- C8: the ADS-C parser accepts heading 0 and heading 360, rejects
heading -1, heading 361 and any non-integer sixth field with the
heading error, and rejects a four-field report with the field-count
error whose message names both the actual count 4 and the expected
count 5. -/
theorem c8_adsc_heading_bounds :
    ParseAdsCMessage "REPORT BAW123 1200 51.5 -0.5 35000 0".toList =
      .ok ⟨"BAW123".toList, "1200".toList, "51.5".toList, "-0.5".toList, 35000, some 0⟩ ∧
    ParseAdsCMessage "REPORT BAW123 1200 51.5 -0.5 35000 360".toList =
      .ok ⟨"BAW123".toList, "1200".toList, "51.5".toList, "-0.5".toList, 35000,
        some 360⟩ ∧
    ParseAdsCMessage "REPORT BAW123 1200 51.5 -0.5 35000 -1".toList =
      .error .headingError ∧
    ParseAdsCMessage "REPORT BAW123 1200 51.5 -0.5 35000 361".toList =
      .error .headingError ∧
    ParseAdsCMessage "REPORT A B C D".toList = .error (.fieldCountError 4) ∧
    fieldCountErrorMessage 4 = "(got 4 field values, expected 5 field values)".toList ∧
    (∀ msg strip, stripPfx reportLit msg = some strip →
      (splitOnChar ' ' (trimOneSpace strip)).length > 5 →
      goAtoi ((splitOnChar ' ' (trimOneSpace strip)).getD 5 []) = none →
      ParseAdsCMessage msg = .error .headingError) := by
  refine ⟨by decide, by decide, by decide, by decide, by decide, by decide, ?_⟩
  intro msg strip hstrip hlen hatoi
  rw [ParseAdsCMessage, hstrip]
  dsimp only
  rw [if_neg (by omega), if_pos hlen, hatoi]

/-- Witness for C8 at a concrete six-field report whose sixth field is
not an integer. -/
theorem c8_adsc_heading_bounds_witness :
    ParseAdsCMessage "REPORT BAW123 1200 51.5 -0.5 35000 north".toList =
      .error .headingError :=
  c8_adsc_heading_bounds.2.2.2.2.2.2 "REPORT BAW123 1200 51.5 -0.5 35000 north".toList
    " BAW123 1200 51.5 -0.5 35000 north".toList (by decide) (by decide) (by decide)

/-- C9: the envelope scan returns matches in input order, ignores
surrounding text, and returns the empty sequence when nothing matches;
on the two-envelope input it yields exactly the two envelopes in input
order. -/
theorem c9_envelope_scan :
    ParseACARSMessage "\x7bA cpdlc \x7bX\x7d\x7d\x7bB telex \x7bY\x7d\x7d".toList =
      [⟨"A".toList, "cpdlc".toList, "X".toList⟩,
        ⟨"B".toList, "telex".toList, "Y".toList⟩] ∧
    ParseACARSMessage "junk \x7bA cpdlc \x7bX\x7d\x7d junk".toList =
      [⟨"A".toList, "cpdlc".toList, "X".toList⟩] ∧
    (∀ cs, (∀ c ∈ cs, c ≠ openBrace) → ParseACARSMessage cs = []) := by
  refine ⟨by decide, by decide, ?_⟩
  intro cs h
  exact scanACARS_no_open cs.length cs h

/-- Witness for C9 on an input with no envelope at all. -/
theorem c9_envelope_scan_witness :
    ParseACARSMessage "no envelopes at all".toList = [] :=
  c9_envelope_scan.2.2 "no envelopes at all".toList (by decide)
